import Mathlib

set_option maxRecDepth 8000

namespace GpxSplit

/-- Namespace URI of the generic GPX 1.1 schema (constant `GPX_NS` in the source). -/
def GPX_NS : String := "http://www.topografix.com/GPX/1/1"

/-- Namespace URI of the Garmin GPX extensions schema (constant `GARMIN_GPXX_NS` in the source). -/
def GARMIN_GPXX_NS : String := "http://www.garmin.com/xmlschemas/GpxExtensions/v3"

/-- Clark notation for a namespaced XML tag, exactly as ElementTree spells such tags internally. -/
def nsTag (ns t : String) : String := "\x7b" ++ ns ++ "\x7d" ++ t

/-- Model of an in-memory ElementTree element: tag (namespaced tags in Clark
    notation), ordered attribute list, optional text, ordered list of children. -/
inductive XmlElem : Type where
  | mk (tag : String) (attrs : List (String × String)) (text : Option String)
       (children : List XmlElem)

def XmlElem.tag : XmlElem → String
  | .mk t _ _ _ => t

def XmlElem.attrs : XmlElem → List (String × String)
  | .mk _ a _ _ => a

def XmlElem.text : XmlElem → Option String
  | .mk _ _ x _ => x

def XmlElem.children : XmlElem → List XmlElem
  | .mk _ _ _ cs => cs

/-- Replace the child list of an element. -/
def XmlElem.withChildren : XmlElem → List XmlElem → XmlElem
  | .mk t a x _, cs => .mk t a x cs

/-- Attribute lookup, modelling `Element.get(key)` (attribute dicts have unique keys). -/
def XmlElem.attr? (e : XmlElem) (k : String) : Option String :=
  (e.attrs.find? (fun p => p.1 = k)).map (fun p => p.2)

mutual

/-- Texts of all descendants of `e` (document order, `e` itself excluded)
    whose tag is `tag`; its length counts those descendants. -/
def tagTextsL (tag : String) : List XmlElem → List (Option String)
  | [] => []
  | c :: rest => tagTextsE tag c ++ tagTextsL tag rest

/-- Texts of `e` and all its descendants whose tag is `tag`, in document order. -/
def tagTextsE (tag : String) : XmlElem → List (Option String)
  | .mk t _ x cs => (if t = tag then [x] else []) ++ tagTextsL tag cs

end

/-- Number of descendants of `e` (itself excluded) carrying tag `tag`,
    as a `findall` with path `.//tag` would count them. -/
def countInside (tag : String) (e : XmlElem) : Nat :=
  (tagTextsL tag e.children).length

/-- Truncation toward zero on rationals, modelling Python int() applied to a float. -/
def pyTrunc (q : ℚ) : ℤ := if 0 ≤ q then ⌊q⌋ else -⌊-q⌋

/-- Model of colorsys.hsv_to_rgb from the Python standard library, the only
    library call of generate_safe_colors, in exact rational arithmetic in
    place of IEEE doubles.  On every hue generate_safe_colors feeds it for
    the palette sizes considered in this development, the rounded 8-bit
    channels agree with the double computation: no channel product lies
    within the rounding error of an integer. -/
def hsv_to_rgb (h s v : ℚ) : ℚ × ℚ × ℚ :=
  if s = 0 then (v, v, v)
  else
    let i0 : ℤ := pyTrunc (h * 6)
    let f : ℚ := h * 6 - (i0 : ℚ)
    let p : ℚ := v * (1 - s)
    let q : ℚ := v * (1 - s * f)
    let t : ℚ := v * (1 - s * (1 - f))
    let i : ℤ := i0 % 6
    if i = 0 then (v, t, p)
    else if i = 1 then (q, v, p)
    else if i = 2 then (p, v, t)
    else if i = 3 then (p, q, v)
    else if i = 4 then (t, p, v)
    else (v, p, q)

/-- Uppercase hexadecimal digit for a value below 16. -/
def hexDigit (n : Nat) : Char := if n < 10 then Char.ofNat (48 + n) else Char.ofNat (55 + n)

/-- Two-digit zero-padded uppercase hexadecimal rendering of a byte,
    modelling the format specification 02X for values between 0 and 255. -/
def hexByte (n : Nat) : String := String.mk [hexDigit (n / 16), hexDigit (n % 16)]

/-- Body of the accepted-hue branch of the palette loop: HSV with S = 1.0 and
    V = 0.85 converted to RGB and formatted as an uppercase hash-RRGGBB string. -/
def hueHex (hue_deg : ℚ) : String :=
  let rgb := hsv_to_rgb (hue_deg / 360) 1 (85 / 100)
  "#" ++ hexByte (pyTrunc (rgb.1 * 255)).toNat ++ hexByte (pyTrunc (rgb.2.1 * 255)).toNat
      ++ hexByte (pyTrunc (rgb.2.2 * 255)).toNat

/-- Banned-hue test of generate_safe_colors: yellow, green and light blue bands. -/
def bannedHue (hue_deg : ℚ) : Bool :=
  (50 ≤ hue_deg && hue_deg ≤ 70) || (100 ≤ hue_deg && hue_deg ≤ 140) ||
    (180 ≤ hue_deg && hue_deg ≤ 210)

/-- While-loop of generate_safe_colors.  The fuel argument only totalises the
    source's unbounded while-loop; the length theorems below certify that the
    loop exits through its own guard (a fuel exit would leave fewer than n
    colors) for every palette size the program uses.  Colors are accumulated
    in reverse and flipped on exit, matching repeated list append. -/
def genLoop (n : Nat) (step : ℚ) : Nat → ℚ → List String → List String
  | 0, _, acc => acc.reverse
  | fuel + 1, hue_deg, acc =>
    if n ≤ acc.length then acc.reverse
    else
      let acc' := if bannedHue hue_deg then acc else hueHex hue_deg :: acc
      let hue' := hue_deg + step
      genLoop n step fuel (if 360 ≤ hue' then hue' - 360 else hue') acc'

/-- generate_safe_colors: walk the hue circle in steps of 360/n starting
    at hue 0, skipping banned hues and wrapping past 360, until n colors are
    collected; the source defaults n to 8, which COLORS below passes. -/
def generate_safe_colors (n : Nat) : List String :=
  genLoop n (360 / (n : ℚ)) (1000 * n + 1000) 0 []

/-- Module-level palette: COLORS = generate_safe_colors(8). -/
def COLORS : List String := generate_safe_colors 8

/-- Companion of genLoop that records the accepted starting hue of each
    emitted color instead of the formatted color itself, so that theorems can
    speak about the hue a palette entry was generated from. -/
def genHues (n : Nat) (step : ℚ) : Nat → ℚ → List ℚ → List ℚ
  | 0, _, acc => acc.reverse
  | fuel + 1, hue_deg, acc =>
    if n ≤ acc.length then acc.reverse
    else
      let acc' := if bannedHue hue_deg then acc else hue_deg :: acc
      let hue' := hue_deg + step
      genHues n step fuel (if 360 ≤ hue' then hue' - 360 else hue') acc'

/-- Accepted starting hues of generate_safe_colors(n), in emission order. -/
def acceptedHues (n : Nat) : List ℚ :=
  genHues n (360 / (n : ℚ)) (1000 * n + 1000) 0 []

/-- Well-formed uppercase hash-RRGGBB hex color string. -/
def isHexColorString (s : String) : Bool :=
  s.toList.length == 7 && s.toList.head? == some '#' &&
    (s.toList.drop 1).all (fun c => c.isDigit || ('A' ≤ c && c ≤ 'F'))

/-- Character class of the regular expression in sanitize_filename:
    ASCII letters, digits, space, underscore and hyphen are kept. -/
def keptChar (c : Char) : Bool := c.isAlpha || c.isDigit || c = ' ' || c = '_' || c = '-'

/-- Character-by-character substitution on a string, modelling both the
    single-character re.sub and str.replace of sanitize_filename. -/
def mapChars (f : Char → Char) (s : String) : String := String.mk (s.toList.map f)

/-- Python str.strip with argument underscore: leading and trailing
    underscores removed. -/
def stripUnderscores (s : String) : String :=
  String.mk (((s.toList.dropWhile (fun c => c = '_')).reverse.dropWhile
    (fun c => c = '_')).reverse)

/-- sanitize_filename: empty names fall back to deelroute; otherwise every
    character outside the kept class becomes an underscore, spaces become
    underscores, outer underscores are stripped, and an empty remainder
    falls back to deelroute. -/
def sanitize_filename (name : String) : String :=
  if name = "" then "deelroute"
  else
    let s1 := mapChars (fun c => if keptChar c then c else '_') name
    let s2 := mapChars (fun c => if c = ' ' then '_' else c) s1
    let s3 := stripUnderscores s2
    if s3 = "" then "deelroute" else s3

/-- Numeric value of a digit string. -/
def digitsVal (ds : List Char) : ℕ := ds.foldl (fun a c => 10 * a + (c.toNat - 48)) 0

/-- Nonempty and all characters decimal digits. -/
def allDigits (ds : List Char) : Bool := !ds.isEmpty && ds.all (fun c => c.isDigit)

/-- Split a character list at the first character satisfying p, if any. -/
def splitAtFirst (p : Char → Bool) : List Char → Option (List Char × List Char)
  | [] => none
  | c :: rest =>
    if p c then some ([], rest)
    else (splitAtFirst p rest).map (fun q => (c :: q.1, q.2))

/-- Optional leading sign; the flag records a minus sign. -/
def parseSign : List Char → Bool × List Char
  | '+' :: r => (false, r)
  | '-' :: r => (true, r)
  | cs => (false, cs)

/-- Mantissa of a decimal literal: digits, digits point digits, digits point,
    or point digits; a bare point or empty mantissa is rejected. -/
def parseMantissa (cs : List Char) : Option ℚ :=
  match splitAtFirst (fun c => c = '.') cs with
  | none => if allDigits cs then some ((digitsVal cs : ℤ) : ℚ) else none
  | some q =>
    if q.1.all (fun c => c.isDigit) && q.2.all (fun c => c.isDigit) &&
        (!q.1.isEmpty || !q.2.isEmpty) then
      some ((digitsVal q.1 : ℚ) + (digitsVal q.2 : ℚ) / ((10 : ℚ) ^ q.2.length))
    else none

/-- Model of Python float(string) on finite decimal literals: surrounding
    whitespace stripped, optional sign, decimal mantissa, optional signed
    exponent after e or E; anything else yields none (a ValueError).  The
    special spellings inf and nan and digit-group underscores, which no GPX
    coordinate uses, are not modelled. -/
def pyFloat? (s : String) : Option ℚ :=
  let sg := parseSign s.trim.toList
  let core :=
    match splitAtFirst (fun c => c = 'e' || c = 'E') sg.2 with
    | none => parseMantissa sg.2
    | some me =>
      let es := parseSign me.2
      if allDigits es.2 then
        (parseMantissa me.1).map (fun q =>
          q * (10 : ℚ) ^ (if es.1 then -(digitsVal es.2 : ℤ) else (digitsVal es.2 : ℤ)))
      else none
  core.map (fun q => if sg.1 then -q else q)

/-- Python truthiness of an optional attribute string: absent and empty are falsy. -/
def truthy : Option String → Bool
  | none => false
  | some s => s != ""

/-- Python min over a list, used only on nonempty lists (0 is unreachable filler). -/
def listMin : List ℚ → ℚ
  | [] => 0
  | x :: xs => xs.foldl min x

/-- Python max over a list, used only on nonempty lists (0 is unreachable filler). -/
def listMax : List ℚ → ℚ
  | [] => 0
  | x :: xs => xs.foldl max x

mutual

/-- Matching elements of a list of subtrees in document order. -/
def descTagL (tag : String) : List XmlElem → List XmlElem
  | [] => []
  | c :: rest => descTagE tag c ++ descTagL tag rest

/-- Element and descendants carrying the given tag, in document order. -/
def descTagE (tag : String) : XmlElem → List XmlElem
  | .mk t a x cs => (if t = tag then [XmlElem.mk t a x cs] else []) ++ descTagL tag cs

end

/-- findall with a path of the shape .//tag from e: every descendant of e
    (e itself excluded) carrying the tag, in document order. -/
def findallDesc (tag : String) (e : XmlElem) : List XmlElem := descTagL tag e.children

/-- Per-point body of the bounds loop.  The two appends mirror the source's
    try block: the latitude is appended before the longitude conversion can
    raise, so a point whose latitude parses but whose longitude does not
    still contributes its latitude. -/
def boundsStep (acc : List ℚ × List ℚ) (pt : XmlElem) : List ℚ × List ℚ :=
  let lat := pt.attr? "lat"
  let lon := pt.attr? "lon"
  if truthy lat && truthy lon then
    match pyFloat? (lat.getD "") with
    | none => acc
    | some la =>
      match pyFloat? (lon.getD "") with
      | none => (acc.1 ++ [la], acc.2)
      | some lo => (acc.1 ++ [la], acc.2 ++ [lo])
  else acc

/-- The lats and lons lists accumulated over a point list. -/
def collected (pts : List XmlElem) : List ℚ × List ℚ := pts.foldl boundsStep ([], [])

/-- Bounds of a point list: min and max of each accumulated axis when both
    lists are nonempty, otherwise none. -/
def boundsOfPts (pts : List XmlElem) : Option (ℚ × ℚ × ℚ × ℚ) :=
  let r := collected pts
  if !r.1.isEmpty && !r.2.isEmpty then
    some (listMin r.1, listMin r.2, listMax r.1, listMax r.2)
  else none

/-- calculate_bounds: min and max lat and lon over the track's trkpt
    descendants, or none. -/
def calculate_bounds (track_elem : XmlElem) : Option (ℚ × ℚ × ℚ × ℚ) :=
  boundsOfPts (findallDesc (nsTag GPX_NS "trkpt") track_elem)

/-- Decimal rendering of a rational whose denominator divides a power of ten,
    modelling Python's default float formatting on the exactly-decimal
    values arising from parsed coordinates; integral values print with a
    trailing .0 as Python floats do. -/
def floatStr (q : ℚ) : String :=
  let sign := if q < 0 then "-" else ""
  let a := |q|
  match (List.range 18).find? (fun k => (a * 10 ^ k).den = 1) with
  | some 0 => sign ++ toString a.num ++ ".0"
  | some (k + 1) =>
    let ds := toString (a * 10 ^ (k + 1)).num
    let padded := String.mk (List.replicate (k + 2 - min (k + 2) ds.length) '0') ++ ds
    sign ++ String.mk (padded.toList.take (padded.length - (k + 1))) ++ "." ++
      String.mk (padded.toList.drop (padded.length - (k + 1)))
  | none => sign ++ toString a.num ++ "/" ++ toString a.den

/-- The bounds element built by add_bounds, attributes in source order. -/
def mkBoundsElem (minlat minlon maxlat maxlon : ℚ) : XmlElem :=
  .mk "bounds"
    [("minlat", floatStr minlat), ("minlon", floatStr minlon),
     ("maxlat", floatStr maxlat), ("maxlon", floatStr maxlon)] none []

/-- add_bounds: insert the bounds element at position 0 when bounds were
    computed, otherwise leave the track unchanged. -/
def add_bounds (track_elem : XmlElem) (bounds : Option (ℚ × ℚ × ℚ × ℚ)) : XmlElem :=
  match bounds with
  | none => track_elem
  | some (minlat, minlon, maxlat, maxlon) =>
    track_elem.withChildren (mkBoundsElem minlat minlon maxlat maxlon :: track_elem.children)

/-- Update the first child carrying the given tag in place, modelling
    Element.find on a bare tag followed by mutation of the found child. -/
def updateFirst (tag : String) (f : XmlElem → XmlElem) : List XmlElem → List XmlElem
  | [] => []
  | c :: rest => if c.tag = tag then f c :: rest else c :: updateFirst tag f rest

/-- In-place assignment of the text field. -/
def setText (t : Option String) : XmlElem → XmlElem
  | .mk tg a _ cs => .mk tg a t cs

/-- Whether some direct child carries the given tag (Element.find succeeding). -/
def hasChildTag (tag : String) (e : XmlElem) : Bool := e.children.any (fun c => c.tag = tag)

/-- Inner step of add_standard_display_color on the extensions child:
    find-or-create the display_color child, then set its text. -/
def setDispInExt (hex_color : String) (ext : XmlElem) : XmlElem :=
  if hasChildTag "display_color" ext then
    ext.withChildren (updateFirst "display_color" (setText (some hex_color)) ext.children)
  else
    ext.withChildren (ext.children ++ [.mk "display_color" [] (some hex_color) []])

/-- add_standard_display_color: find-or-create the unprefixed extensions
    child of the track, find-or-create display_color inside it, set its text. -/
def add_standard_display_color (track_elem : XmlElem) (hex_color : String) : XmlElem :=
  if hasChildTag "extensions" track_elem then
    track_elem.withChildren (updateFirst "extensions" (setDispInExt hex_color) track_elem.children)
  else
    track_elem.withChildren
      (track_elem.children ++ [.mk "extensions" [] none [.mk "display_color" [] (some hex_color) []]])

mutual

/-- Set the text of the first element of the subtree rooted here carrying the
    given tag; the flag reports whether one was found. -/
def updTextFirstE (tag hex : String) : XmlElem → XmlElem × Bool
  | .mk t a x cs =>
    if t = tag then (.mk t a (some hex) cs, true)
    else
      let p := updTextFirstL tag hex cs
      (.mk t a x p.1, p.2)

/-- List version of the first-descendant text update, in document order. -/
def updTextFirstL (tag hex : String) : List XmlElem → List XmlElem × Bool
  | [] => ([], false)
  | c :: rest =>
    let p := updTextFirstE tag hex c
    if p.2 then (p.1 :: rest, true)
    else
      let q := updTextFirstL tag hex rest
      (c :: q.1, q.2)

end

/-- Clark-notation tag of the vendor-namespaced DisplayColor element. -/
def gpxtDisplayColorTag : String := nsTag GARMIN_GPXX_NS "DisplayColor"

/-- The namespaced extensions block appended when no gpxt DisplayColor
    descendant exists: extensions, TrackExtension, DisplayColor with text. -/
def gpxtBlock (hex_color : String) : XmlElem :=
  .mk (nsTag GPX_NS "extensions") [] none
    [.mk (nsTag GARMIN_GPXX_NS "TrackExtension") [] none
      [.mk gpxtDisplayColorTag [] (some hex_color) []]]

/-- add_or_update_gpxt_display_color: overwrite the text of an existing gpxt
    DisplayColor descendant found with path .//, else append a fresh
    namespaced block as a new child of the track. -/
def add_or_update_gpxt_display_color (track_elem : XmlElem) (hex_color : String) : XmlElem :=
  let p := updTextFirstL gpxtDisplayColorTag hex_color track_elem.children
  if p.2 then track_elem.withChildren p.1
  else track_elem.withChildren (track_elem.children ++ [gpxtBlock hex_color])

/-- Outcome of ET.parse on the input path: a root element, a ParseError, or
    any other reading failure. -/
inductive ParseResult : Type where
  | ok (root : XmlElem)
  | parseError (msg : String)
  | ioError (msg : String)

/-- Observable outcome of one run of split_gpx: the files written (name and
    document root, in write order), the in-memory tree after the run, and
    the messages printed. -/
structure SplitResult where
  writes : List (String × XmlElem)
  finalRoot : Option XmlElem
  messages : List String

/-- Model of the tostring-then-fromstring roundtrip used to copy elements:
    it reproduces an equal element, independent of the original. -/
def deep_copy (e : XmlElem) : XmlElem := e

/-- The fresh standalone gpx root element built for each output document. -/
def new_gpx_root (content : List XmlElem) : XmlElem :=
  .mk "gpx"
    [("version", "1.1"), ("creator", "GPX Splitter Script"),
     ("xmlns", GPX_NS), ("xmlns:gpx", GPX_NS), ("xmlns:gpxt", GARMIN_GPXX_NS)] none content

/-- Clark-notation tag of a trk element. -/
def trkTag : String := nsTag GPX_NS "trk"

/-- Clark-notation tag of a wpt element. -/
def wptTag : String := nsTag GPX_NS "wpt"

/-- Clark-notation tag of a name element. -/
def nameTag : String := nsTag GPX_NS "name"

/-- Name label of a track at a 1-based ordinal: the stripped text of the
    name child when that child exists with truthy text, else the generated
    deelroute label. -/
def track_label (idx : Nat) (track : XmlElem) : String :=
  match track.children.find? (fun c => c.tag = nameTag) with
  | some nm =>
    match nm.text with
    | some s => if s = "" then "deelroute_" ++ toString idx else s.trim
    | none => "deelroute_" ++ toString idx
  | none => "deelroute_" ++ toString idx

/-- Body of the per-track loop of split_gpx: derive the safe filename, pick
    the palette color by ordinal, inject both color encodings into the track
    element itself, compute and insert bounds, and build the output document
    around a copy.  Returns the mutated in-tree element, the filename, and
    the document written. -/
def process_track (idx : Nat) (track : XmlElem) : XmlElem × String × XmlElem :=
  let safe_name := sanitize_filename (track_label idx track)
  let chosen_color_hex := COLORS.getD ((idx - 1) % COLORS.length) ""
  let t1 := add_standard_display_color track chosen_color_hex
  let t2 := add_or_update_gpxt_display_color t1 chosen_color_hex
  let t3 := add_bounds t2 (calculate_bounds t2)
  (t3, safe_name ++ ".gpx", new_gpx_root [deep_copy t3])

/-- Walk of the root's children threading the in-place mutation of each trk
    element back into the tree; the ordinal counts trk elements only,
    starting at the given index. -/
def annotate_trks (idx : Nat) : List XmlElem → List XmlElem × List (String × XmlElem)
  | [] => ([], [])
  | c :: rest =>
    if c.tag = trkTag then
      let r := process_track idx c
      let q := annotate_trks (idx + 1) rest
      (r.1 :: q.1, (r.2.1, r.2.2) :: q.2)
    else
      let q := annotate_trks idx rest
      (c :: q.1, q.2)

/-- write_all_waypoints: collect the root's direct wpt children; when none
    exist report and write nothing, else write one aggregate document of
    copies of every waypoint. -/
def write_all_waypoints (root : XmlElem) : List (String × XmlElem) × List String :=
  let wpts := root.children.filter (fun c => c.tag = wptTag)
  if wpts.isEmpty then
    ([], ["Geen <wpt> waypoints gevonden; All-Waypoints.gpx niet aangemaakt."])
  else
    ([("All-Waypoints.gpx", new_gpx_root (wpts.map deep_copy))],
     [toString wpts.length ++ " waypoints opgeslagen in: All-Waypoints.gpx"])

/-- split_gpx after parsing: on a parse or read failure report the cause and
    write nothing; otherwise annotate each trk child in place with ordinals
    from 1, write one document per track, then write the waypoint aggregate
    from the (mutated) root.  Directory naming and creation, which precede
    parsing and add no content, are outside the model. -/
def split_gpx (parsed : ParseResult) : SplitResult :=
  match parsed with
  | .parseError e =>
    ⟨[], none, ["Fout: Het GPX-bestand kon niet worden geparsed: " ++ e]⟩
  | .ioError e =>
    ⟨[], none, ["Onverwachte fout bij het lezen van het GPX-bestand: " ++ e]⟩
  | .ok root =>
    let tracks := root.children.filter (fun c => c.tag = trkTag)
    let p := annotate_trks 1 root.children
    let newRoot := root.withChildren p.1
    let trackMsgs :=
      if tracks.isEmpty then ["Geen <trk> deelroutes gevonden in het GPX-bestand."]
      else [toString tracks.length ++ " deelroutes zijn succesvol gesplitst en opgeslagen"]
    let w := write_all_waypoints newRoot
    ⟨p.2 ++ w.1, some newRoot, trackMsgs ++ w.2⟩

/-- Latitude contribution of one point to the bounds computation: present
    exactly when both attributes are truthy and the latitude parses, whether
    or not the longitude does — the source appends the latitude before the
    longitude conversion can raise. -/
def latContrib (pt : XmlElem) : Option ℚ :=
  if truthy (pt.attr? "lat") && truthy (pt.attr? "lon") then
    pyFloat? ((pt.attr? "lat").getD "")
  else none

/-- Longitude contribution of one point to the bounds computation: present
    exactly when both attributes are truthy and both values parse. -/
def lonContrib (pt : XmlElem) : Option ℚ :=
  if truthy (pt.attr? "lat") && truthy (pt.attr? "lon") then
    match pyFloat? ((pt.attr? "lat").getD ""), pyFloat? ((pt.attr? "lon").getD "") with
    | some _, some lo => some lo
    | _, _ => none
  else none

/-- Modelled from the spec's words, for comparison with calculate_bounds:
    the bounding box as the minimum and maximum of the latitudes and
    longitudes of the valid points — those whose lat and lon both parse —
    absent when no valid point exists. -/
def spec_calculate_bounds (track_elem : XmlElem) : Option (ℚ × ℚ × ℚ × ℚ) :=
  let pts := findallDesc (nsTag GPX_NS "trkpt") track_elem
  let vlats := pts.filterMap (fun p =>
    match pyFloat? ((p.attr? "lat").getD ""), pyFloat? ((p.attr? "lon").getD "") with
    | some la, some _ => some la
    | _, _ => none)
  let vlons := pts.filterMap (fun p =>
    match pyFloat? ((p.attr? "lat").getD ""), pyFloat? ((p.attr? "lon").getD "") with
    | some _, some lo => some lo
    | _, _ => none)
  if !vlats.isEmpty then
    some (listMin vlats, listMin vlons, listMax vlats, listMax vlons)
  else none

/-- Trackpoint element with the given lat and lon attribute strings (fixture). -/
def mkPt (la lo : String) : XmlElem :=
  .mk (nsTag GPX_NS "trkpt") [("lat", la), ("lon", lo)] none []

/-- Track element holding one trkseg with the given points (fixture). -/
def mkTrk (pts : List XmlElem) : XmlElem :=
  .mk trkTag [] none [.mk (nsTag GPX_NS "trkseg") [] none pts]

/-- Fixture for C3: a fully valid point followed by a point whose latitude
    parses but whose longitude does not. -/
def C3Track : XmlElem := mkTrk [mkPt "10" "20", mkPt "5" "junk"]

/-- Fixture for C3: the same track with the half-parsing point removed. -/
def C3TrackPruned : XmlElem := mkTrk [mkPt "10" "20"]

/-- Fixture for C5: a point whose latitude parses but whose longitude does
    not, followed by a fully valid point. -/
def C5Track : XmlElem := mkTrk [mkPt "7" "oops", mkPt "9.5" "30"]

/-- Fixture for C5: the spec's two-point example track. -/
def C5ExampleTrack : XmlElem := mkTrk [mkPt "10" "20", mkPt "12" "18"]

/-- Fixture for C1: a parsed document with one named track of one point. -/
def C1Root : XmlElem :=
  .mk (nsTag GPX_NS "gpx") [("version", "1.1")] none
    [.mk trkTag [] none
      [.mk nameTag [] (some "Etappe 1") [], .mk (nsTag GPX_NS "trkseg") [] none
        [mkPt "10" "20"]]]

/-- Fixture for C6 and C1 witnesses: a bare track with no children. -/
def W6Trk : XmlElem := .mk trkTag [] none []

/-- Fixture for C9: a point carrying only a lat attribute. -/
def C9PtNoLon : XmlElem := .mk (nsTag GPX_NS "trkpt") [("lat", "10")] none []

/-- Fixture for C10: a track whose name element holds whitespace-only text. -/
def C10Trk : XmlElem := .mk trkTag [] none [.mk nameTag [] (some " ") []]

/-- Fixture for C10: a second track whose name holds different whitespace. -/
def C10Trk' : XmlElem :=
  .mk trkTag [] none [.mk nameTag [] (some "  ") [], .mk (nsTag GPX_NS "trkseg") [] none []]

/-- Mutual induction over elements, element conclusion. -/
theorem xmlElemInd {P : XmlElem → Prop} {Q : List XmlElem → Prop}
    (hmk : ∀ t a x cs, Q cs → P (.mk t a x cs))
    (hnil : Q []) (hcons : ∀ c cs, P c → Q cs → Q (c :: cs)) :
    ∀ e, P e :=
  fun e => XmlElem.rec hmk hnil hcons e

/-- Mutual induction over elements, child-list conclusion. -/
theorem xmlListInd {P : XmlElem → Prop} {Q : List XmlElem → Prop}
    (hmk : ∀ t a x cs, Q cs → P (.mk t a x cs))
    (hnil : Q []) (hcons : ∀ c cs, P c → Q cs → Q (c :: cs)) :
    ∀ cs, Q cs := by
  intro cs
  induction cs with
  | nil => exact hnil
  | cons c rest ih => exact hcons c rest (xmlElemInd hmk hnil hcons c) ih

theorem dropWhile_underscore_replicate (k : Nat) :
    (List.replicate k '_').dropWhile (fun c => c = '_') = [] := by
  induction k with
  | zero => rfl
  | succ k ih => simp [List.replicate_succ, List.dropWhile_cons, ih]

theorem stripUnderscores_replicate (k : Nat) :
    stripUnderscores (String.mk (List.replicate k '_')) = "" := by
  unfold stripUnderscores
  simp [dropWhile_underscore_replicate]

/-- C4, counterexample.  Sanitizing the spec's example name yields a double
    underscore before 2024 (the space and the hash sign each become one),
    not the single underscore the claim states; and the all-punctuation name
    consisting of one hyphen is returned unchanged, not replaced by the
    fallback. -/
theorem C4_cex_sanitize_example :
    sanitize_filename "Ronde van Drenthe #2024" = "Ronde_van_Drenthe__2024"
    ∧ "Ronde_van_Drenthe__2024" ≠ "Ronde_van_Drenthe_2024"
    ∧ sanitize_filename "-" = "-"
    ∧ "-" ≠ "deelroute" := by decide

/-- C4, amended.  Sanitizing the example name yields Ronde_van_Drenthe__2024
    with a doubled underscore; an empty name yields the fallback deelroute;
    and a name all of whose characters are neither ASCII alphanumeric nor a
    hyphen (so every punctuation name without hyphens, every all-underscore
    and all-space name) also yields the fallback deelroute. -/
theorem C4_sanitize_filename_values (s : String)
    (h : ∀ c ∈ s.toList, c.isAlpha = false ∧ c.isDigit = false ∧ c ≠ '-') :
    sanitize_filename "Ronde van Drenthe #2024" = "Ronde_van_Drenthe__2024"
    ∧ sanitize_filename "" = "deelroute"
    ∧ sanitize_filename s = "deelroute" := by
  refine ⟨by decide, rfl, ?_⟩
  by_cases hs : s = ""
  · subst hs; rfl
  · have hmap : ((s.toList.map fun c => if keptChar c then c else '_').map
        fun c => if c = ' ' then '_' else c) = List.replicate s.toList.length '_' := by
      rw [List.map_map, List.eq_replicate_iff]
      refine ⟨by simp, ?_⟩
      intro b hb
      rw [List.mem_map] at hb
      obtain ⟨c, hc, hbc⟩ := hb
      obtain ⟨ha, hd, hh⟩ := h c hc
      subst hbc
      show (if (if keptChar c then c else '_') = ' ' then '_'
        else if keptChar c then c else '_') = '_'
      have hk : keptChar c = (decide (c = ' ') || decide (c = '_')) := by
        unfold keptChar
        rw [ha, hd, decide_eq_false hh]
        simp
      by_cases hsp : c = ' '
      · subst hsp; simp [hk]
      · by_cases hus : c = '_'
        · subst hus; simp [hk]
        · rw [hk, decide_eq_false hsp, decide_eq_false hus]
          simp
    simp only [sanitize_filename, mapChars, if_neg hs]
    have htl : (String.mk (s.toList.map fun c => if keptChar c then c else '_')).toList
        = s.toList.map fun c => if keptChar c then c else '_' := rfl
    rw [htl, hmap, stripUnderscores_replicate]
    rfl

/-- C4, witness. -/
theorem C4_sanitize_filename_values_witness :
    sanitize_filename "#?!" = "deelroute" :=
  (C4_sanitize_filename_values "#?!" (by decide)).2.2

/-- C2, evaluation at the failing input.  generate_safe_colors(8) does return
    8 entries, but the hue walk wraps past 360 after six accepted hues, so
    entries 7 and 8 repeat entries 1 and 2 verbatim: the palette is not
    duplicate-free, contradicting the claim (and the source's own promise of
    8 distinctive colors, each sub-route a unique color). -/
theorem C2_palette8_repeats_entries :
    (generate_safe_colors 8).length = 8
    ∧ (generate_safe_colors 8)[0]? = some "#D80000"
    ∧ (generate_safe_colors 8)[6]? = some "#D80000"
    ∧ (generate_safe_colors 8)[1]? = some "#D8A200"
    ∧ (generate_safe_colors 8)[7]? = some "#D8A200"
    ∧ ¬ (generate_safe_colors 8).Nodup := by with_unfolding_all decide

/-- C7.  For n in {1,4,8,12} the palette loop terminates through its own
    guard with exactly n entries (a fuel exit would leave fewer), every entry
    is a well-formed uppercase hash-RRGGBB string, every entry is generated
    from a starting hue outside the three banned bands, and the n=8 palette
    is the fixed sequence below — the function is pure, so repeated calls
    return this exact same sequence. -/
theorem C7_palette_wellformed :
    ((generate_safe_colors 1).length = 1 ∧ (generate_safe_colors 4).length = 4
      ∧ (generate_safe_colors 8).length = 8 ∧ (generate_safe_colors 12).length = 12)
    ∧ (∀ n ∈ [1, 4, 8, 12], (generate_safe_colors n).all isHexColorString = true)
    ∧ (∀ n ∈ [1, 4, 8, 12], generate_safe_colors n = (acceptedHues n).map hueHex)
    ∧ (∀ n ∈ [1, 4, 8, 12], (acceptedHues n).all (fun hu => !bannedHue hu) = true)
    ∧ generate_safe_colors 8 =
        ["#D80000", "#D8A200", "#6CD800", "#0036D8", "#6C00D8", "#D800A2",
         "#D80000", "#D8A200"] := by with_unfolding_all decide

/-- C8.  On a parse failure (malformed XML) or any other reading failure the
    run reports the cause and writes no file at all: no per-track file and no
    All-Waypoints.gpx, so the freshly created output directory stays empty. -/
theorem C8_parse_failure_writes_nothing (msg : String) :
    (split_gpx (.parseError msg)).writes = []
    ∧ (split_gpx (.parseError msg)).messages
        = ["Fout: Het GPX-bestand kon niet worden geparsed: " ++ msg]
    ∧ (split_gpx (.ioError msg)).writes = []
    ∧ (split_gpx (.ioError msg)).messages
        = ["Onverwachte fout bij het lezen van het GPX-bestand: " ++ msg] :=
  ⟨rfl, rfl, rfl, rfl⟩

theorem XmlElem.children_withChildren (e : XmlElem) (cs : List XmlElem) :
    (e.withChildren cs).children = cs := by
  cases e; rfl

theorem XmlElem.tag_withChildren (e : XmlElem) (cs : List XmlElem) :
    (e.withChildren cs).tag = e.tag := by
  cases e; rfl

/-- One step of the bounds fold appends exactly the point's two optional
    contributions to the accumulator. -/
theorem boundsStep_eq (acc : List ℚ × List ℚ) (pt : XmlElem) :
    boundsStep acc pt = (acc.1 ++ (latContrib pt).toList, acc.2 ++ (lonContrib pt).toList) := by
  unfold boundsStep latContrib lonContrib
  cases hb : (truthy (pt.attr? "lat") && truthy (pt.attr? "lon"))
  · simp [hb]
  · simp only [hb, if_true]
    cases hla : pyFloat? ((pt.attr? "lat").getD "")
    · simp
    · cases hlo : pyFloat? ((pt.attr? "lon").getD "") <;> simp

/-- Folding the bounds step from any accumulator prepends that accumulator. -/
theorem foldl_boundsStep_from (pts : List XmlElem) (acc : List ℚ × List ℚ) :
    pts.foldl boundsStep acc = (acc.1 ++ (collected pts).1, acc.2 ++ (collected pts).2) := by
  induction pts generalizing acc with
  | nil => simp [collected]
  | cons p ps ih =>
    have hR : collected (p :: ps)
        = ((boundsStep ([], []) p).1 ++ (collected ps).1,
           (boundsStep ([], []) p).2 ++ (collected ps).2) := by
      show (p :: ps).foldl boundsStep ([], []) = _
      rw [List.foldl_cons, ih (boundsStep ([], []) p)]
    rw [List.foldl_cons, ih (boundsStep acc p), hR, boundsStep_eq acc p,
      boundsStep_eq ([], []) p]
    simp

/-- The two accumulated lists are exactly the pointwise contributions. -/
theorem collected_eq_filterMap (pts : List XmlElem) :
    collected pts = (pts.filterMap latContrib, pts.filterMap lonContrib) := by
  induction pts with
  | nil => rfl
  | cons p ps ih =>
    have h1 : collected (p :: ps)
        = ((boundsStep ([], []) p).1 ++ (collected ps).1,
           (boundsStep ([], []) p).2 ++ (collected ps).2) := by
      show (p :: ps).foldl boundsStep ([], []) = _
      rw [List.foldl_cons, foldl_boundsStep_from ps (boundsStep ([], []) p)]
    rw [h1, boundsStep_eq ([], []) p, ih]
    cases hla : latContrib p <;> cases hlo : lonContrib p <;>
      simp [List.filterMap_cons, hla, hlo]

/-- A point contributing a longitude also contributed a latitude. -/
theorem latContrib_isSome_of_lonContrib (pt : XmlElem) (v : ℚ)
    (h : lonContrib pt = some v) : ∃ w, latContrib pt = some w := by
  unfold lonContrib at h
  unfold latContrib
  cases hb : (truthy (pt.attr? "lat") && truthy (pt.attr? "lon"))
  · rw [hb] at h; simp at h
  · rw [hb] at h
    simp only [if_true] at h ⊢
    cases hla : pyFloat? ((pt.attr? "lat").getD "")
    · rw [hla] at h; simp at h
    · exact ⟨_, rfl⟩

/-- A point whose latitude contributes nothing contributes no longitude either. -/
theorem lonContrib_eq_none_of_latContrib (pt : XmlElem)
    (h : latContrib pt = none) : lonContrib pt = none := by
  unfold latContrib at h
  unfold lonContrib
  cases hb : (truthy (pt.attr? "lat") && truthy (pt.attr? "lon"))
  · simp
  · rw [hb] at h
    simp only [if_true] at h ⊢
    rw [h]

/-- Nonempty longitude contributions force nonempty latitude contributions. -/
theorem filterMap_lat_ne_nil (pts : List XmlElem)
    (h : pts.filterMap lonContrib ≠ []) : pts.filterMap latContrib ≠ [] := by
  induction pts with
  | nil => simp at h
  | cons p ps ih =>
    cases hla : latContrib p
    · have hlo : lonContrib p = none := lonContrib_eq_none_of_latContrib p hla
      rw [List.filterMap_cons, hla]
      rw [List.filterMap_cons, hlo] at h
      exact ih h
    · simp [List.filterMap_cons, hla]

theorem foldl_max_mono (a b : ℚ) (h : a ≤ b) (xs : List ℚ) :
    xs.foldl max a ≤ xs.foldl max b := by
  induction xs generalizing a b with
  | nil => exact h
  | cons y ys ih => exact ih _ _ (max_le_max h le_rfl)

theorem foldl_min_le_foldl_max (x : ℚ) (xs : List ℚ) :
    xs.foldl min x ≤ xs.foldl max x := by
  induction xs generalizing x with
  | nil => exact le_rfl
  | cons y ys ih =>
    calc (y :: ys).foldl min x = ys.foldl min (min x y) := rfl
    _ ≤ ys.foldl max (min x y) := ih _
    _ ≤ ys.foldl max (max x y) := foldl_max_mono _ _ (min_le_max.trans le_rfl) ys

theorem listMin_le_listMax (l : List ℚ) (h : l ≠ []) : listMin l ≤ listMax l := by
  cases l with
  | nil => exact absurd rfl h
  | cons x xs => exact foldl_min_le_foldl_max x xs

/-- C9.  A point whose lat or lon attribute is absent or empty is skipped by
    the truthiness guard before any numeric parse is attempted: the fold step
    leaves the accumulator untouched, both accumulated axis lists are as if
    the point were not there, and the resulting bounds are unchanged. -/
theorem C9_missing_or_empty_attribute_point_skipped (acc : List ℚ × List ℚ)
    (pt : XmlElem) (pre post : List XmlElem)
    (h : pt.attr? "lat" = none ∨ pt.attr? "lat" = some "" ∨
         pt.attr? "lon" = none ∨ pt.attr? "lon" = some "") :
    boundsStep acc pt = acc
    ∧ collected (pre ++ pt :: post) = collected (pre ++ post)
    ∧ boundsOfPts (pre ++ pt :: post) = boundsOfPts (pre ++ post) := by
  have hb : (truthy (pt.attr? "lat") && truthy (pt.attr? "lon")) = false := by
    rcases h with h | h | h | h <;> simp [truthy, h]
  have hstep : boundsStep acc pt = acc := by
    simp [boundsStep, hb]
  have hla : latContrib pt = none := by unfold latContrib; rw [hb]; rfl
  have hlo : lonContrib pt = none := by unfold lonContrib; rw [hb]; rfl
  have hcol : collected (pre ++ pt :: post) = collected (pre ++ post) := by
    rw [collected_eq_filterMap, collected_eq_filterMap]
    simp [List.filterMap_append, List.filterMap_cons, hla, hlo]
  refine ⟨hstep, hcol, ?_⟩
  unfold boundsOfPts
  rw [hcol]

/-- C9, witness: a point with no lon attribute at all is skipped. -/
theorem C9_missing_or_empty_attribute_point_skipped_witness :
    boundsStep ([], []) C9PtNoLon = ([], [])
    ∧ boundsOfPts [mkPt "1" "2", C9PtNoLon] = boundsOfPts [mkPt "1" "2"] := by
  have h := C9_missing_or_empty_attribute_point_skipped ([], []) C9PtNoLon
    [mkPt "1" "2"] [] (Or.inr (Or.inr (Or.inl (by with_unfolding_all decide))))
  exact ⟨h.1, h.2.2⟩

/-- C3, counterexample.  A point whose longitude fails to parse still
    contributes its (parseable) latitude: the minimum latitude of C3Track is
    5, taken from the half-parsing point, so removing that point changes the
    computed bounds — the point did not contribute nothing. -/
theorem C3_cex_half_parsed_point_contributes :
    calculate_bounds C3Track = some (5, 20, 10, 20)
    ∧ calculate_bounds C3TrackPruned = some (10, 20, 10, 20)
    ∧ calculate_bounds C3Track ≠ calculate_bounds C3TrackPruned := by
  with_unfolding_all decide

/-- C3, amended.  A point whose lat attribute fails to parse (or whose
    attributes are untruthy) contributes nothing to either axis and raises no
    error; but a point whose lat parses while its lon fails contributes
    exactly its latitude to the latitude list, leaving the longitude list
    unchanged. -/
theorem C3_parse_failure_contribution (pre post : List XmlElem) (pt : XmlElem) :
    (latContrib pt = none →
      collected (pre ++ pt :: post) = collected (pre ++ post)
      ∧ boundsOfPts (pre ++ pt :: post) = boundsOfPts (pre ++ post))
    ∧ (∀ v : ℚ, latContrib pt = some v → lonContrib pt = none →
      (collected (pre ++ pt :: post)).1
          = (collected pre).1 ++ v :: (collected post).1
      ∧ (collected (pre ++ pt :: post)).2 = (collected (pre ++ post)).2) := by
  constructor
  · intro hla
    have hlo := lonContrib_eq_none_of_latContrib pt hla
    have hcol : collected (pre ++ pt :: post) = collected (pre ++ post) := by
      rw [collected_eq_filterMap, collected_eq_filterMap]
      simp [List.filterMap_append, List.filterMap_cons, hla, hlo]
    refine ⟨hcol, ?_⟩
    unfold boundsOfPts
    rw [hcol]
  · intro v hla hlo
    rw [collected_eq_filterMap, collected_eq_filterMap, collected_eq_filterMap,
      collected_eq_filterMap]
    simp [List.filterMap_append, List.filterMap_cons, hla, hlo]

/-- C3, witness: a lat-only-parseable point shifts the latitude list. -/
theorem C3_parse_failure_contribution_witness :
    (collected [mkPt "10" "20", mkPt "5" "junk"]).1
        = (collected [mkPt "10" "20"]).1 ++ 5 :: (collected []).1
    ∧ (collected [mkPt "10" "20", mkPt "5" "junk"]).2 = (collected [mkPt "10" "20"]).2 :=
  by
  have h := (C3_parse_failure_contribution [mkPt "10" "20"] [] (mkPt "5" "junk")).2 5
    (by with_unfolding_all decide) (by with_unfolding_all decide)
  simpa using h

/-- C5, counterexample.  On a track holding a lat-only-parseable point and a
    valid point, calculate_bounds is not the min and max over the valid
    points that the spec describes: the half-parsing point's latitude 7
    lowers the minimum latitude. -/
theorem C5_cex_bounds_not_over_valid_points :
    calculate_bounds C5Track = some (7, 30, 19/2, 30)
    ∧ spec_calculate_bounds C5Track = some (19/2, 30, 19/2, 30)
    ∧ calculate_bounds C5Track ≠ spec_calculate_bounds C5Track := by
  with_unfolding_all decide

/-- C5, amended.  The computed bounding box is the min and max over the two
    accumulated axis lists — all parseable latitudes of truthy-attribute
    points on one axis, longitudes of fully parsing points on the other — and
    is produced exactly when some point parses fully; when produced it
    satisfies min lat at most max lat and min lon at most max lon, and
    add_bounds inserts the bounds element as the first child of the track
    (no bounds element is added when none was computed); on the spec's
    two-point example it is minlat 10, minlon 18, maxlat 12, maxlon 20. -/
theorem C5_bounds_characterization :
    (∀ t, calculate_bounds t =
      (if (findallDesc (nsTag GPX_NS "trkpt") t).filterMap lonContrib = [] then none
       else
        some (listMin ((findallDesc (nsTag GPX_NS "trkpt") t).filterMap latContrib),
              listMin ((findallDesc (nsTag GPX_NS "trkpt") t).filterMap lonContrib),
              listMax ((findallDesc (nsTag GPX_NS "trkpt") t).filterMap latContrib),
              listMax ((findallDesc (nsTag GPX_NS "trkpt") t).filterMap lonContrib))))
    ∧ (∀ t a b c d, calculate_bounds t = some (a, b, c, d) → a ≤ c ∧ b ≤ d)
    ∧ (∀ t a b c d, (add_bounds t (some (a, b, c, d))).children.head?
        = some (mkBoundsElem a b c d))
    ∧ (∀ t, add_bounds t none = t)
    ∧ calculate_bounds C5ExampleTrack = some (10, 18, 12, 20) := by
  have hchar : ∀ t, calculate_bounds t =
      (if (findallDesc (nsTag GPX_NS "trkpt") t).filterMap lonContrib = [] then none
       else
        some (listMin ((findallDesc (nsTag GPX_NS "trkpt") t).filterMap latContrib),
              listMin ((findallDesc (nsTag GPX_NS "trkpt") t).filterMap lonContrib),
              listMax ((findallDesc (nsTag GPX_NS "trkpt") t).filterMap latContrib),
              listMax ((findallDesc (nsTag GPX_NS "trkpt") t).filterMap lonContrib))) := by
    intro t
    unfold calculate_bounds boundsOfPts
    rw [collected_eq_filterMap]
    by_cases hL : (findallDesc (nsTag GPX_NS "trkpt") t).filterMap lonContrib = []
    · simp [hL]
    · have hA := filterMap_lat_ne_nil _ hL
      simp [hL, hA]
  refine ⟨hchar, ?_, ?_, ?_, ?_⟩
  · intro t a b c d h
    rw [hchar t] at h
    by_cases hL : (findallDesc (nsTag GPX_NS "trkpt") t).filterMap lonContrib = []
    · rw [if_pos hL] at h
      exact absurd h (by simp)
    · rw [if_neg hL, Option.some.injEq, Prod.mk.injEq, Prod.mk.injEq,
        Prod.mk.injEq] at h
      obtain ⟨h1, h2, h3, h4⟩ := h
      subst h1; subst h2; subst h3; subst h4
      exact ⟨listMin_le_listMax _ (filterMap_lat_ne_nil _ hL), listMin_le_listMax _ hL⟩
  · intro t a b c d
    cases t
    rfl
  · intro t
    rfl
  · with_unfolding_all decide

/-- C5, witness: the example track's bounds satisfy both axis inequalities. -/
theorem C5_bounds_characterization_witness : (10 : ℚ) ≤ 12 ∧ (18 : ℚ) ≤ 20 :=
  C5_bounds_characterization.2.1 C5ExampleTrack 10 18 12 20
    C5_bounds_characterization.2.2.2.2

theorem XmlElem.withChildren_withChildren (e : XmlElem) (cs ds : List XmlElem) :
    (e.withChildren cs).withChildren ds = e.withChildren ds := by
  cases e; rfl

theorem tag_setText (t : Option String) (e : XmlElem) : (setText t e).tag = e.tag := by
  cases e; rfl

theorem setText_setText (t t' : Option String) (e : XmlElem) :
    setText t' (setText t e) = setText t' e := by
  cases e; rfl

theorem tag_setDispInExt (hex : String) (e : XmlElem) :
    (setDispInExt hex e).tag = e.tag := by
  unfold setDispInExt
  split <;> rw [XmlElem.tag_withChildren]

theorem updateFirst_congr (tag : String) (f g : XmlElem → XmlElem)
    (h : ∀ e, f e = g e) (cs : List XmlElem) :
    updateFirst tag f cs = updateFirst tag g cs := by
  induction cs with
  | nil => rfl
  | cons c rest ih =>
    simp only [updateFirst]
    rw [h c, ih]

theorem updateFirst_append_left_clean (tag : String) (f : XmlElem → XmlElem)
    (cs ds : List XmlElem) (h : ∀ c ∈ cs, c.tag ≠ tag) :
    updateFirst tag f (cs ++ ds) = cs ++ updateFirst tag f ds := by
  induction cs with
  | nil => rfl
  | cons c rest ih =>
    simp only [List.cons_append, updateFirst]
    rw [if_neg (h c (List.mem_cons_self c rest))]
    exact congrArg (fun l => c :: l) (ih fun x hx => h x (List.mem_cons_of_mem c hx))

theorem updateFirst_updateFirst (tag : String) (f g : XmlElem → XmlElem)
    (hg : ∀ e, (g e).tag = e.tag) (cs : List XmlElem) :
    updateFirst tag f (updateFirst tag g cs) = updateFirst tag (fun e => f (g e)) cs := by
  induction cs with
  | nil => rfl
  | cons c rest ih =>
    by_cases hc : c.tag = tag
    · simp only [updateFirst, if_pos hc]
      rw [if_pos (by rw [hg c]; exact hc)]
    · simp only [updateFirst, if_neg hc]
      rw [ih]

theorem any_tag_updateFirst (tag tagq : String) (f : XmlElem → XmlElem)
    (hf : ∀ e, (f e).tag = e.tag) (cs : List XmlElem) :
    (updateFirst tag f cs).any (fun c => c.tag = tagq)
      = cs.any (fun c => c.tag = tagq) := by
  induction cs with
  | nil => rfl
  | cons c rest ih =>
    by_cases hc : c.tag = tag
    · simp only [updateFirst, if_pos hc, List.any_cons, hf c]
    · simp only [updateFirst, if_neg hc, List.any_cons, ih]

theorem not_child_of_hasChildTag_false (tag : String) (e : XmlElem)
    (h : ¬ hasChildTag tag e = true) : ∀ c ∈ e.children, c.tag ≠ tag := by
  intro c hc htag
  apply h
  unfold hasChildTag
  rw [List.any_eq_true]
  exact ⟨c, hc, by simp [htag]⟩

/-- Applying the inner display_color step twice keeps only the second value. -/
theorem setDispInExt_setDispInExt (c c' : String) (e : XmlElem) :
    setDispInExt c' (setDispInExt c e) = setDispInExt c' e := by
  by_cases hd : hasChildTag "display_color" e
  · unfold setDispInExt
    rw [if_pos hd]
    have h2 : hasChildTag "display_color"
        (e.withChildren (updateFirst "display_color" (setText (some c)) e.children))
          = true := by
      unfold hasChildTag
      rw [XmlElem.children_withChildren,
        any_tag_updateFirst _ _ _ (tag_setText (some c))]
      exact hd
    rw [if_pos h2, if_pos hd, XmlElem.children_withChildren,
      XmlElem.withChildren_withChildren,
      updateFirst_updateFirst _ _ _ (tag_setText (some c)),
      updateFirst_congr _ _ _ (setText_setText (some c) (some c'))]
  · unfold setDispInExt
    rw [if_neg hd]
    have h2 : hasChildTag "display_color"
        (e.withChildren (e.children ++ [XmlElem.mk "display_color" [] (some c) []]))
          = true := by
      unfold hasChildTag
      rw [XmlElem.children_withChildren, List.any_append]
      simp [XmlElem.tag]
    rw [if_pos h2, if_neg hd, XmlElem.children_withChildren,
      XmlElem.withChildren_withChildren,
      updateFirst_append_left_clean _ _ _ _ (not_child_of_hasChildTag_false _ _ hd)]
    rfl

theorem hasChildTag_add_standard (t : XmlElem) (c : String) :
    hasChildTag "extensions" (add_standard_display_color t c) = true := by
  unfold add_standard_display_color
  by_cases he : hasChildTag "extensions" t
  · rw [if_pos he]
    unfold hasChildTag
    rw [XmlElem.children_withChildren, any_tag_updateFirst _ _ _ (tag_setDispInExt c)]
    exact he
  · rw [if_neg he]
    unfold hasChildTag
    rw [XmlElem.children_withChildren, List.any_append]
    simp [XmlElem.tag]

/-- C6 law, generic encoding: the second injection finds and overwrites. -/
theorem add_standard_display_color_idem (t : XmlElem) (c c' : String) :
    add_standard_display_color (add_standard_display_color t c) c'
      = add_standard_display_color t c' := by
  by_cases he : hasChildTag "extensions" t
  · unfold add_standard_display_color
    rw [if_pos he, if_pos he]
    rw [if_pos (by
      have := hasChildTag_add_standard t c
      unfold add_standard_display_color at this
      rw [if_pos he] at this
      exact this)]
    rw [XmlElem.children_withChildren, XmlElem.withChildren_withChildren,
      updateFirst_updateFirst _ _ _ (tag_setDispInExt c),
      updateFirst_congr _ _ _ (setDispInExt_setDispInExt c c')]
  · unfold add_standard_display_color
    rw [if_neg he, if_neg he]
    rw [if_pos (by
      have := hasChildTag_add_standard t c
      unfold add_standard_display_color at this
      rw [if_neg he] at this
      exact this)]
    rw [XmlElem.children_withChildren, XmlElem.withChildren_withChildren,
      updateFirst_append_left_clean _ _ _ _ (not_child_of_hasChildTag_false _ _ he)]
    rfl

theorem tagTextsL_append (tag : String) (cs ds : List XmlElem) :
    tagTextsL tag (cs ++ ds) = tagTextsL tag cs ++ tagTextsL tag ds := by
  induction cs with
  | nil => rfl
  | cons c rest ih =>
    simp only [List.cons_append, tagTextsL]
    show tagTextsE tag c ++ tagTextsL tag (rest ++ ds) = _
    rw [ih, List.append_assoc]

theorem tagTextsE_ne_nil (tag : String) (c : XmlElem) (htag : c.tag = tag) :
    tagTextsE tag c ≠ [] := by
  cases c with
  | mk t a x cs =>
    simp only [XmlElem.tag] at htag
    simp [tagTextsE, htag]

theorem texts_ne_nil_of_mem (tag : String) (c : XmlElem) (cs : List XmlElem)
    (hmem : c ∈ cs) (htag : c.tag = tag) : tagTextsL tag cs ≠ [] := by
  induction cs with
  | nil => simp at hmem
  | cons d rest ih =>
    simp only [tagTextsL]
    intro hn
    rw [List.append_eq_nil] at hn
    rcases List.mem_cons.mp hmem with h | h
    · exact tagTextsE_ne_nil tag d (h ▸ htag) hn.1
    · exact ih h hn.2

/-- The inner display_color step on an extensions child free of display_color
    descendants leaves exactly one display_color text, the one written. -/
theorem texts_setDispInExt (c : String) (e : XmlElem)
    (h : tagTextsE "display_color" e = []) :
    tagTextsE "display_color" (setDispInExt c e) = [some c] := by
  cases e with
  | mk t a x cs =>
    simp only [tagTextsE] at h
    rw [List.append_eq_nil] at h
    obtain ⟨h1, h2⟩ := h
    have ht : ¬ t = "display_color" := by
      intro hh
      rw [if_pos hh] at h1
      simp at h1
    have hd : ¬ hasChildTag "display_color" (XmlElem.mk t a x cs) = true := by
      intro hh
      unfold hasChildTag at hh
      rw [List.any_eq_true] at hh
      obtain ⟨ch, hch, hcht⟩ := hh
      exact texts_ne_nil_of_mem _ ch cs hch (by simpa using hcht) h2
    unfold setDispInExt
    rw [if_neg hd]
    show tagTextsE "display_color"
      (XmlElem.mk t a x (cs ++ [XmlElem.mk "display_color" [] (some c) []])) = [some c]
    simp only [tagTextsE]
    rw [if_neg ht, tagTextsL_append, h2]
    rfl

/-- Updating the first extensions child of a display_color-free list leaves
    exactly the one display_color text written into that child. -/
theorem texts_updateFirst_ext (c : String) (cs : List XmlElem)
    (h : tagTextsL "display_color" cs = [])
    (he : cs.any (fun x => x.tag = "extensions") = true) :
    tagTextsL "display_color" (updateFirst "extensions" (setDispInExt c) cs) = [some c] := by
  induction cs with
  | nil => simp at he
  | cons d rest ih =>
    have hsplit : tagTextsE "display_color" d = [] ∧ tagTextsL "display_color" rest = [] := by
      rw [← List.append_eq_nil]
      exact h
    by_cases hd : d.tag = "extensions"
    · simp only [updateFirst, if_pos hd, tagTextsL]
      rw [texts_setDispInExt c d hsplit.1, hsplit.2]
      rfl
    · simp only [updateFirst, if_neg hd, tagTextsL]
      rw [hsplit.1]
      rw [List.any_cons] at he
      have he2 : d.tag = "extensions" ∨ rest.any (fun x => x.tag = "extensions") = true := by
        simpa using he
      rcases he2 with h' | h'
      · exact absurd h' hd
      · rw [ih hsplit.2 h']
        rfl

/-- C6 fact, generic encoding: from a track with no display_color descendant
    anywhere, one injection leaves exactly one display_color text. -/
theorem texts_add_standard (t : XmlElem) (c : String)
    (h : tagTextsL "display_color" t.children = []) :
    tagTextsL "display_color" (add_standard_display_color t c).children = [some c] := by
  unfold add_standard_display_color
  by_cases he : hasChildTag "extensions" t
  · rw [if_pos he, XmlElem.children_withChildren]
    exact texts_updateFirst_ext c t.children h he
  · rw [if_neg he, XmlElem.children_withChildren, tagTextsL_append, h]
    rfl

/-- Unfolding of the list-level text update on a cons cell. -/
theorem updTextFirstL_cons (tag hex : String) (c : XmlElem) (cs : List XmlElem) :
    updTextFirstL tag hex (c :: cs)
      = if (updTextFirstE tag hex c).2 = true
        then ((updTextFirstE tag hex c).1 :: cs, true)
        else (c :: (updTextFirstL tag hex cs).1, (updTextFirstL tag hex cs).2) := rfl

/-- A subtree whose matching-tag text list is empty is returned unchanged
    with a false found-flag. -/
theorem updTextFirstE_of_texts_nil (tag : String) :
    ∀ e : XmlElem, ∀ hex, tagTextsE tag e = [] → updTextFirstE tag hex e = (e, false) := by
  refine @xmlElemInd
    (fun e => ∀ hex, tagTextsE tag e = [] → updTextFirstE tag hex e = (e, false))
    (fun cs => ∀ hex, tagTextsL tag cs = [] → updTextFirstL tag hex cs = (cs, false))
    ?_ ?_ ?_
  · intro t a x cs hQ hex h
    simp only [tagTextsE] at h
    rw [List.append_eq_nil] at h
    obtain ⟨h1, h2⟩ := h
    have ht : ¬ t = tag := by
      intro hh
      rw [if_pos hh] at h1
      simp at h1
    simp only [updTextFirstE]
    rw [if_neg ht, hQ hex h2]
  · intro hex h
    rfl
  · intro c cs hP hQ hex h
    simp only [tagTextsL] at h
    rw [List.append_eq_nil] at h
    obtain ⟨h1, h2⟩ := h
    rw [updTextFirstL_cons, hP hex h1, hQ hex h2]
    simp

/-- List version of the unchanged-subtree fact. -/
theorem updTextFirstL_of_texts_nil (tag : String) (cs : List XmlElem) (hex : String)
    (h : tagTextsL tag cs = []) : updTextFirstL tag hex cs = (cs, false) := by
  induction cs with
  | nil => rfl
  | cons c rest ih =>
    simp only [tagTextsL] at h
    rw [List.append_eq_nil] at h
    obtain ⟨h1, h2⟩ := h
    rw [updTextFirstL_cons, updTextFirstE_of_texts_nil tag c hex h1, ih h2]
    simp

/-- The found-flag of the text update does not depend on the text written. -/
theorem updTextFirstE_flag (tag hex hexq : String) :
    ∀ e : XmlElem, (updTextFirstE tag hex e).2 = (updTextFirstE tag hexq e).2 := by
  refine @xmlElemInd
    (fun e => (updTextFirstE tag hex e).2 = (updTextFirstE tag hexq e).2)
    (fun cs => (updTextFirstL tag hex cs).2 = (updTextFirstL tag hexq cs).2)
    ?_ ?_ ?_
  · intro t a x cs hQ
    simp only [updTextFirstE]
    by_cases ht : t = tag
    · rw [if_pos ht, if_pos ht]
    · rw [if_neg ht, if_neg ht]
      simpa using hQ
  · rfl
  · intro c cs hP hQ
    by_cases hc : (updTextFirstE tag hex c).2 = true
    · have hcq : (updTextFirstE tag hexq c).2 = true := by rw [← hP]; exact hc
      rw [updTextFirstL_cons, updTextFirstL_cons, if_pos hc, if_pos hcq]
    · have hcq : ¬ (updTextFirstE tag hexq c).2 = true := by rw [← hP]; exact hc
      rw [updTextFirstL_cons, updTextFirstL_cons, if_neg hc, if_neg hcq]
      simpa using hQ

/-- List version of the flag fact. -/
theorem updTextFirstL_flag (tag hex hexq : String) (cs : List XmlElem) :
    (updTextFirstL tag hex cs).2 = (updTextFirstL tag hexq cs).2 := by
  induction cs with
  | nil => rfl
  | cons c rest ih =>
    have hP := updTextFirstE_flag tag hex hexq c
    by_cases hc : (updTextFirstE tag hex c).2 = true
    · have hcq : (updTextFirstE tag hexq c).2 = true := by rw [← hP]; exact hc
      rw [updTextFirstL_cons, updTextFirstL_cons, if_pos hc, if_pos hcq]
    · have hcq : ¬ (updTextFirstE tag hexq c).2 = true := by rw [← hP]; exact hc
      rw [updTextFirstL_cons, updTextFirstL_cons, if_neg hc, if_neg hcq]
      simpa using ih

/-- Two successive text updates keep only the second text. -/
theorem updTextFirstE_comp (tag : String) :
    ∀ e : XmlElem, ∀ c cq : String,
      updTextFirstE tag cq (updTextFirstE tag c e).1 = updTextFirstE tag cq e := by
  refine @xmlElemInd
    (fun e => ∀ c cq : String,
      updTextFirstE tag cq (updTextFirstE tag c e).1 = updTextFirstE tag cq e)
    (fun cs => ∀ c cq : String,
      updTextFirstL tag cq (updTextFirstL tag c cs).1 = updTextFirstL tag cq cs)
    ?_ ?_ ?_
  · intro t a x cs hQ c cq
    by_cases ht : t = tag
    · simp only [updTextFirstE, if_pos ht]
    · simp only [updTextFirstE, if_neg ht]
      rw [hQ c cq]
  · intro c cq
    rfl
  · intro c cs hP hQ cv cq
    have hflag := updTextFirstE_flag tag cv cq c
    by_cases hc : (updTextFirstE tag cv c).2 = true
    · have hcq : (updTextFirstE tag cq c).2 = true := by rw [← hflag]; exact hc
      rw [updTextFirstL_cons tag cv, if_pos hc]
      show updTextFirstL tag cq ((updTextFirstE tag cv c).1 :: cs) = _
      rw [updTextFirstL_cons tag cq, hP cv cq, if_pos hcq,
        updTextFirstL_cons tag cq c cs, if_pos hcq]
    · have hcq : ¬ (updTextFirstE tag cq c).2 = true := by rw [← hflag]; exact hc
      rw [updTextFirstL_cons tag cv, if_neg hc]
      show updTextFirstL tag cq (c :: (updTextFirstL tag cv cs).1) = _
      rw [updTextFirstL_cons tag cq, if_neg hcq, hQ cv cq,
        updTextFirstL_cons tag cq c cs, if_neg hcq]

/-- List version of the composition fact. -/
theorem updTextFirstL_comp (tag : String) (cs : List XmlElem) (c cq : String) :
    updTextFirstL tag cq (updTextFirstL tag c cs).1 = updTextFirstL tag cq cs := by
  induction cs with
  | nil => rfl
  | cons d rest ih =>
    have hflag := updTextFirstE_flag tag c cq d
    by_cases hc : (updTextFirstE tag c d).2 = true
    · have hcq : (updTextFirstE tag cq d).2 = true := by rw [← hflag]; exact hc
      rw [updTextFirstL_cons tag c, if_pos hc]
      show updTextFirstL tag cq ((updTextFirstE tag c d).1 :: rest) = _
      rw [updTextFirstL_cons tag cq, updTextFirstE_comp tag d c cq, if_pos hcq,
        updTextFirstL_cons tag cq d rest, if_pos hcq]
    · have hcq : ¬ (updTextFirstE tag cq d).2 = true := by rw [← hflag]; exact hc
      rw [updTextFirstL_cons tag c, if_neg hc]
      show updTextFirstL tag cq (d :: (updTextFirstL tag c rest).1) = _
      rw [updTextFirstL_cons tag cq, if_neg hcq, ih,
        updTextFirstL_cons tag cq d rest, if_neg hcq]

/-- Updating a list whose left part holds no match walks into the right part. -/
theorem updTextFirstL_append_left_false (tag hex : String) (cs ds : List XmlElem)
    (h : (updTextFirstL tag hex cs).2 = false) :
    updTextFirstL tag hex (cs ++ ds)
      = (cs ++ (updTextFirstL tag hex ds).1, (updTextFirstL tag hex ds).2) := by
  induction cs with
  | nil => simp
  | cons c rest ih =>
    have hsplit : ¬ (updTextFirstE tag hex c).2 = true
        ∧ (updTextFirstL tag hex rest).2 = false := by
      by_cases hc : (updTextFirstE tag hex c).2 = true
      · exfalso
        rw [updTextFirstL_cons, if_pos hc] at h
        simp at h
      · refine ⟨hc, ?_⟩
        rw [updTextFirstL_cons, if_neg hc] at h
        simpa using h
    rw [List.cons_append, updTextFirstL_cons, if_neg hsplit.1, ih hsplit.2]
    simp

/-- Unfolding of the vendor-encoding injection. -/
theorem add_gpxt_eq (t : XmlElem) (c : String) :
    add_or_update_gpxt_display_color t c
      = if (updTextFirstL gpxtDisplayColorTag c t.children).2 = true
        then t.withChildren (updTextFirstL gpxtDisplayColorTag c t.children).1
        else t.withChildren (t.children ++ [gpxtBlock c]) := rfl

/-- Updating the freshly appended vendor block finds its DisplayColor. -/
theorem updTextFirstL_gpxtBlock (c cq : String) :
    updTextFirstL gpxtDisplayColorTag cq [gpxtBlock c] = ([gpxtBlock cq], true) := rfl

/-- C6 fact, vendor encoding: from a track with no vendor DisplayColor
    descendant, one injection leaves exactly one DisplayColor text. -/
theorem texts_add_gpxt (t : XmlElem) (c : String)
    (h : tagTextsL gpxtDisplayColorTag t.children = []) :
    tagTextsL gpxtDisplayColorTag (add_or_update_gpxt_display_color t c).children
      = [some c] := by
  rw [add_gpxt_eq, updTextFirstL_of_texts_nil _ _ _ h]
  simp only [Bool.false_eq_true, if_false]
  rw [XmlElem.children_withChildren, tagTextsL_append, h]
  rfl

/-- C6 law, vendor encoding: the second injection finds and overwrites. -/
theorem add_gpxt_idem (t : XmlElem) (c cq : String) :
    add_or_update_gpxt_display_color (add_or_update_gpxt_display_color t c) cq
      = add_or_update_gpxt_display_color t cq := by
  by_cases hp : (updTextFirstL gpxtDisplayColorTag c t.children).2 = true
  · have hpq : (updTextFirstL gpxtDisplayColorTag cq t.children).2 = true := by
      rw [updTextFirstL_flag gpxtDisplayColorTag cq c t.children]
      exact hp
    rw [add_gpxt_eq t c, if_pos hp, add_gpxt_eq, add_gpxt_eq t cq,
      XmlElem.children_withChildren, updTextFirstL_comp, if_pos hpq, if_pos hpq,
      XmlElem.withChildren_withChildren]
  · have hpf : (updTextFirstL gpxtDisplayColorTag c t.children).2 = false := by
      revert hp
      cases (updTextFirstL gpxtDisplayColorTag c t.children).2 <;> simp
    have hpqf : (updTextFirstL gpxtDisplayColorTag cq t.children).2 = false := by
      rw [updTextFirstL_flag gpxtDisplayColorTag cq c t.children]
      exact hpf
    have hpq' : ¬ (updTextFirstL gpxtDisplayColorTag cq t.children).2 = true := by
      rw [hpqf]
      simp
    rw [add_gpxt_eq t c, if_neg hp, add_gpxt_eq, add_gpxt_eq t cq,
      XmlElem.children_withChildren,
      updTextFirstL_append_left_false _ _ _ _ hpqf, updTextFirstL_gpxtBlock c cq,
      if_neg hpq']
    have hL : ((t.children ++ ([gpxtBlock cq], true).1, ([gpxtBlock cq], true).2)).2
        = true := rfl
    rw [if_pos hL, XmlElem.withChildren_withChildren]

/-- C6.  On a track with no pre-existing display_color value in either
    encoding, injecting a color twice — with the generic encoding and with
    the vendor-namespaced encoding — equals injecting once with the final
    color: the second run finds and overwrites the existing value instead of
    appending a duplicate, and the doubly-injected tree carries exactly one
    display_color text per encoding, the latest one. -/
theorem C6_color_injection_idempotent (t : XmlElem) (c cq : String)
    (h1 : countInside "display_color" t = 0)
    (h2 : countInside gpxtDisplayColorTag t = 0) :
    add_standard_display_color (add_standard_display_color t c) cq
        = add_standard_display_color t cq
    ∧ add_or_update_gpxt_display_color (add_or_update_gpxt_display_color t c) cq
        = add_or_update_gpxt_display_color t cq
    ∧ tagTextsL "display_color"
        (add_standard_display_color (add_standard_display_color t c) cq).children
        = [some cq]
    ∧ tagTextsL gpxtDisplayColorTag
        (add_or_update_gpxt_display_color (add_or_update_gpxt_display_color t c) cq).children
        = [some cq] := by
  have h1' : tagTextsL "display_color" t.children = [] :=
    List.length_eq_zero.mp h1
  have h2' : tagTextsL gpxtDisplayColorTag t.children = [] :=
    List.length_eq_zero.mp h2
  refine ⟨add_standard_display_color_idem t c cq, add_gpxt_idem t c cq, ?_, ?_⟩
  · rw [add_standard_display_color_idem t c cq]
    exact texts_add_standard t cq h1'
  · rw [add_gpxt_idem t c cq]
    exact texts_add_gpxt t cq h2'

/-- C6, witness: double injection on a bare track keeps one value per
    encoding, the latest. -/
theorem C6_color_injection_idempotent_witness :
    tagTextsL "display_color"
      (add_standard_display_color (add_standard_display_color W6Trk "#D80000") "#0036D8").children
      = [some "#0036D8"]
    ∧ tagTextsL gpxtDisplayColorTag
      (add_or_update_gpxt_display_color
        (add_or_update_gpxt_display_color W6Trk "#D80000") "#0036D8").children
      = [some "#0036D8"] :=
  ⟨(C6_color_injection_idempotent W6Trk "#D80000" "#0036D8" rfl rfl).2.2.1,
   (C6_color_injection_idempotent W6Trk "#D80000" "#0036D8" rfl rfl).2.2.2⟩

theorem tag_add_standard (t : XmlElem) (c : String) :
    (add_standard_display_color t c).tag = t.tag := by
  unfold add_standard_display_color
  split <;> rw [XmlElem.tag_withChildren]

theorem tag_add_gpxt (t : XmlElem) (c : String) :
    (add_or_update_gpxt_display_color t c).tag = t.tag := by
  rw [add_gpxt_eq]
  split <;> rw [XmlElem.tag_withChildren]

theorem tag_add_bounds (t : XmlElem) (b : Option (ℚ × ℚ × ℚ × ℚ)) :
    (add_bounds t b).tag = t.tag := by
  cases b with
  | none => rfl
  | some q =>
    obtain ⟨a, b2, c, d⟩ := q
    exact XmlElem.tag_withChildren t _

theorem tag_process_track (i : Nat) (t : XmlElem) :
    (process_track i t).1.tag = t.tag := by
  show (add_bounds _ _).tag = t.tag
  rw [tag_add_bounds, tag_add_gpxt, tag_add_standard]

theorem texts_dc_add_bounds (u : XmlElem) (b : Option (ℚ × ℚ × ℚ × ℚ)) :
    tagTextsL "display_color" (add_bounds u b).children
      = tagTextsL "display_color" u.children := by
  cases b with
  | none => rfl
  | some q =>
    obtain ⟨a, b2, c, d⟩ := q
    show tagTextsL "display_color"
      (u.withChildren (mkBoundsElem a b2 c d :: u.children)).children = _
    rw [XmlElem.children_withChildren]
    show tagTextsE "display_color" (mkBoundsElem a b2 c d)
      ++ tagTextsL "display_color" u.children = _
    have hb : tagTextsE "display_color" (mkBoundsElem a b2 c d) = [] := rfl
    rw [hb, List.nil_append]

/-- The text update for one tag leaves the text survey of any other tag alone. -/
theorem texts_other_updTextFirstE (tag tagq hex : String) (htags : tagq ≠ tag) :
    ∀ e : XmlElem, tagTextsE tagq (updTextFirstE tag hex e).1 = tagTextsE tagq e := by
  refine @xmlElemInd
    (fun e => tagTextsE tagq (updTextFirstE tag hex e).1 = tagTextsE tagq e)
    (fun cs => tagTextsL tagq (updTextFirstL tag hex cs).1 = tagTextsL tagq cs)
    ?_ ?_ ?_
  · intro t a x cs hQ
    by_cases ht : t = tag
    · simp only [updTextFirstE, if_pos ht]
      have htq : ¬ t = tagq := fun hh => htags (hh ▸ ht ▸ rfl)
      show (if t = tagq then [some hex] else []) ++ tagTextsL tagq cs = _
      rw [if_neg htq]
      show tagTextsL tagq cs = tagTextsE tagq (XmlElem.mk t a x cs)
      rw [tagTextsE, if_neg htq, List.nil_append]
    · simp only [updTextFirstE, if_neg ht]
      show (if t = tagq then [x] else []) ++ tagTextsL tagq (updTextFirstL tag hex cs).1
        = tagTextsE tagq (XmlElem.mk t a x cs)
      rw [hQ, tagTextsE]
  · rfl
  · intro c cs hP hQ
    by_cases hc : (updTextFirstE tag hex c).2 = true
    · rw [updTextFirstL_cons, if_pos hc]
      show tagTextsE tagq (updTextFirstE tag hex c).1 ++ tagTextsL tagq cs = _
      rw [hP, tagTextsL]
    · rw [updTextFirstL_cons, if_neg hc]
      show tagTextsE tagq c ++ tagTextsL tagq (updTextFirstL tag hex cs).1 = _
      rw [hQ, tagTextsL]

/-- List version of the other-tag survey preservation. -/
theorem texts_other_updTextFirstL (tag tagq hex : String) (htags : tagq ≠ tag)
    (cs : List XmlElem) :
    tagTextsL tagq (updTextFirstL tag hex cs).1 = tagTextsL tagq cs := by
  induction cs with
  | nil => rfl
  | cons d rest ih =>
    by_cases hd : (updTextFirstE tag hex d).2 = true
    · rw [updTextFirstL_cons, if_pos hd]
      show tagTextsE tagq (updTextFirstE tag hex d).1 ++ tagTextsL tagq rest = _
      rw [texts_other_updTextFirstE tag tagq hex htags d, tagTextsL]
    · rw [updTextFirstL_cons, if_neg hd]
      show tagTextsE tagq d ++ tagTextsL tagq (updTextFirstL tag hex rest).1 = _
      rw [ih, tagTextsL]

/-- The vendor-namespaced injection never touches generic display_color texts. -/
theorem texts_dc_add_gpxt (u : XmlElem) (c : String) :
    tagTextsL "display_color" (add_or_update_gpxt_display_color u c).children
      = tagTextsL "display_color" u.children := by
  have hne : "display_color" ≠ gpxtDisplayColorTag := by decide
  rw [add_gpxt_eq]
  by_cases hp : (updTextFirstL gpxtDisplayColorTag c u.children).2 = true
  · rw [if_pos hp, XmlElem.children_withChildren]
    exact texts_other_updTextFirstL gpxtDisplayColorTag "display_color" c hne u.children
  · rw [if_neg hp, XmlElem.children_withChildren, tagTextsL_append]
    have hblk : tagTextsL "display_color" [gpxtBlock c] = [] := rfl
    rw [hblk, List.append_nil]

/-- One pass of the per-track loop over a display_color-free track leaves
    exactly one generic display_color text: the ordinal's palette color. -/
theorem texts_process_track (i : Nat) (t : XmlElem)
    (h : tagTextsL "display_color" t.children = []) :
    tagTextsL "display_color" (process_track i t).1.children
      = [some (COLORS.getD ((i - 1) % COLORS.length) "")] := by
  show tagTextsL "display_color"
    (add_bounds
      (add_or_update_gpxt_display_color
        (add_standard_display_color t (COLORS.getD ((i - 1) % COLORS.length) ""))
        (COLORS.getD ((i - 1) % COLORS.length) ""))
      (calculate_bounds _)).children = _
  rw [texts_dc_add_bounds, texts_dc_add_gpxt]
  exact texts_add_standard t _ h

/-- The first trk element of the walked child list is the processed form of
    the first trk element of the input list, at ordinal equal to the start. -/
theorem find_trk_annotate (i : Nat) (cs : List XmlElem) (t : XmlElem)
    (h : cs.find? (fun c => c.tag = trkTag) = some t) :
    (annotate_trks i cs).1.find? (fun c => c.tag = trkTag)
      = some (process_track i t).1 := by
  induction cs generalizing i with
  | nil => simp at h
  | cons c rest ih =>
    by_cases hc : c.tag = trkTag
    · rw [List.find?_cons_of_pos _ (by simp [hc])] at h
      injection h with h
      subst h
      simp only [annotate_trks, if_pos hc]
      exact List.find?_cons_of_pos _ (by simp [tag_process_track, hc])
    · rw [List.find?_cons_of_neg _ (by simp [hc])] at h
      simp only [annotate_trks, if_neg hc]
      show (c :: (annotate_trks i rest).1).find? (fun c => c.tag = trkTag) = _
      rw [List.find?_cons_of_neg _ (by simp [hc])]
      exact ih i h

/-- C1, counterexample.  Running the split on a concrete parsed document
    leaves the in-memory parse tree different from its state right after
    parsing: the track element was annotated in place, not on a copy. -/
theorem C1_cex_parse_tree_mutated :
    (split_gpx (.ok C1Root)).finalRoot ≠ some C1Root := by
  intro h
  have h2 := congrArg (fun r => (Option.map (countInside "display_color") r).getD 0) h
  exact absurd h2 (by with_unfolding_all decide)

/-- C1, amended.  The per-track loop annotates the original in-memory Track
    element in place: after the run the parse tree's first trk child is the
    annotated form of the parsed one — for a track that had no display_color
    it now carries exactly one — so the in-memory tree is no longer identical
    to its freshly parsed state.  Only the serialized output document is
    built around a copy, and the input file itself is never rewritten. -/
theorem C1_annotation_mutates_in_place (root t : XmlElem)
    (htrk : root.children.find? (fun c => c.tag = trkTag) = some t)
    (hdc : countInside "display_color" t = 0) :
    (((split_gpx (.ok root)).finalRoot.bind
        (fun r => r.children.find? (fun c => c.tag = trkTag))).map
          (countInside "display_color")) = some 1
    ∧ (split_gpx (.ok root)).finalRoot ≠ some root := by
  have hsplit : (split_gpx (.ok root)).finalRoot
      = some (root.withChildren (annotate_trks 1 root.children).1) := rfl
  have hfind := find_trk_annotate 1 root.children t htrk
  have htexts := texts_process_track 1 t (List.length_eq_zero.mp hdc)
  constructor
  · rw [hsplit]
    show ((root.withChildren (annotate_trks 1 root.children).1).children.find?
        (fun c => c.tag = trkTag)).map (countInside "display_color") = some 1
    rw [XmlElem.children_withChildren, hfind]
    show some (countInside "display_color" (process_track 1 t).1) = some 1
    unfold countInside
    rw [htexts]
    rfl
  · rw [hsplit]
    intro h
    injection h with h
    have hch : (annotate_trks 1 root.children).1 = root.children := by
      have h2 := congrArg XmlElem.children h
      rwa [XmlElem.children_withChildren] at h2
    rw [hch, htrk] at hfind
    injection hfind with hfind
    have hcc := congrArg (countInside "display_color") hfind
    rw [hdc] at hcc
    unfold countInside at hcc
    rw [htexts] at hcc
    exact absurd hcc (by decide)

/-- C1, witness: on the concrete document the final tree's track carries the
    injected color and the tree differs from its parsed state. -/
theorem C1_annotation_mutates_in_place_witness :
    (((split_gpx (.ok C1Root)).finalRoot.bind
        (fun r => r.children.find? (fun c => c.tag = trkTag))).map
          (countInside "display_color")) = some 1
    ∧ (split_gpx (.ok C1Root)).finalRoot ≠ some C1Root :=
  C1_annotation_mutates_in_place C1Root
    (.mk trkTag [] none
      [.mk nameTag [] (some "Etappe 1") [], .mk (nsTag GPX_NS "trkseg") [] none
        [mkPt "10" "20"]])
    rfl rfl

/-- C10.  A track whose name element exists with truthy whitespace-only text
    is labelled with the stripped empty name, not with the generated
    deelroute underscore ordinal label, so its output filename is
    deelroute.gpx with no ordinal suffix — and any two such tracks in one
    input target the same filename, whatever their ordinals. -/
theorem C10_whitespace_name_collision (idx idxq : Nat) (t tq nm nmq : XmlElem)
    (w wq : String)
    (h1 : t.children.find? (fun c => c.tag = nameTag) = some nm)
    (h2 : nm.text = some w) (h3 : w ≠ "") (h4 : w.trim = "")
    (h5 : tq.children.find? (fun c => c.tag = nameTag) = some nmq)
    (h6 : nmq.text = some wq) (h7 : wq ≠ "") (h8 : wq.trim = "") :
    track_label idx t = ""
    ∧ (process_track idx t).2.1 = "deelroute.gpx"
    ∧ (process_track idx t).2.1 = (process_track idxq tq).2.1 := by
  have hlab : ∀ (i : Nat) (tt nn : XmlElem) (ww : String),
      tt.children.find? (fun c => c.tag = nameTag) = some nn → nn.text = some ww →
      ww ≠ "" → ww.trim = "" → track_label i tt = "" := by
    intro i tt nn ww f1 f2 f3 f4
    unfold track_label
    rw [f1]
    show (match nn.text with
      | some s => if s = "" then "deelroute_" ++ toString i else s.trim
      | none => "deelroute_" ++ toString i) = ""
    rw [f2]
    show (if ww = "" then "deelroute_" ++ toString i else ww.trim) = ""
    rw [if_neg f3, f4]
  have hl1 := hlab idx t nm w h1 h2 h3 h4
  have hl2 := hlab idxq tq nmq wq h5 h6 h7 h8
  have hf1 : (process_track idx t).2.1 = "deelroute.gpx" := by
    show sanitize_filename (track_label idx t) ++ ".gpx" = "deelroute.gpx"
    rw [hl1]
    rfl
  have hf2 : (process_track idxq tq).2.1 = "deelroute.gpx" := by
    show sanitize_filename (track_label idxq tq) ++ ".gpx" = "deelroute.gpx"
    rw [hl2]
    rfl
  exact ⟨hl1, hf1, hf1.trans hf2.symm⟩

/-- C10, witness: two whitespace-named tracks map to the same filename. -/
theorem C10_whitespace_name_collision_witness :
    track_label 1 C10Trk = ""
    ∧ (process_track 1 C10Trk).2.1 = "deelroute.gpx"
    ∧ (process_track 1 C10Trk).2.1 = (process_track 2 C10Trk').2.1 :=
  C10_whitespace_name_collision 1 2 C10Trk C10Trk'
    (.mk nameTag [] (some " ") []) (.mk nameTag [] (some "  ") []) " " "  "
    rfl rfl (by decide) (by with_unfolding_all decide) rfl rfl (by decide)
    (by with_unfolding_all decide)

end GpxSplit
